import Mathlib

/-!
Verification development for the NEVC-MTR1-t01 SCPI command engine
(`src/main/scpi_parser.cpp`, `src/main/scpi_parser.h`, `src/main/scpi_config.h`,
`src/main/scpi_types.h` and the SCPI type implementation file).

The C++ code is shallowly embedded:
* C strings are byte lists (`List Nat`, each entry one `char` value); the C
  `ctype` functions are embedded as their ASCII-range definitions,
* the 8-bit hash accumulator `scpi_hash_t = uint8_t` is a `Nat` reduced
  `% 256` at every arithmetic step, exactly as uint8_t arithmetic truncates,
* the mutable fields of the `SCPI_Parser` object (token store, registered
  codes, tree base, error flags, message buffer) form a `ParserState` record,
* handler invocations are recorded as `Event` values: `Event.handler i` is
  a call through `callers_[i]`, the handler bound by the `i`-th
  `RegisterCommand` call, and `Event.errorCall` is a call through the error
  slot `callers_[max_commands]`.  The `Stream &interface` argument is passed
  through unchanged by the C++ code and is not modelled,
* `SCPI_MAX_SPECIAL_COMMANDS` is 0 in `scpi_config.h`, so the
  special-command blocks are compiled out of the source and not modelled.
-/

namespace Scpi

/-- Bytes of a C string literal. -/
def bytes (s : String) : List Nat := s.toList.map Char.toNat

/-- C `isupper` for the ASCII execution character set (avr-libc ctype). -/
def isupperB (b : Nat) : Bool := decide (65 ≤ b ∧ b ≤ 90)

/-- C `islower` for the ASCII execution character set. -/
def islowerB (b : Nat) : Bool := decide (97 ≤ b ∧ b ≤ 122)

/-- C `isdigit`. -/
def isdigitB (b : Nat) : Bool := decide (48 ≤ b ∧ b ≤ 57)

/-- C `isspace`: space, \t, \n, \v, \f, \r. -/
def isspaceB (b : Nat) : Bool := decide (b = 32 ∨ (9 ≤ b ∧ b ≤ 13))

/-- C `toupper` for ASCII. -/
def toupperB (b : Nat) : Nat := if islowerB b then b - 32 else b

/-- Byte value of `'?'`. -/
def questionB : Nat := 63

/-- Byte value of `'#'`. -/
def hashMarkB : Nat := 35

/-- Byte value of `':'`. -/
def colonB : Nat := 58

/-- Byte value of `';'`. -/
def semiB : Nat := 59

/-- Byte value of `','`. -/
def commaB : Nat := 44

/-- Byte value of `' '`. -/
def spaceB : Nat := 32

/-- Byte value of `'\t'`. -/
def tabB : Nat := 9

/-- `SCPI_Parser::hash_magic_number` (scpi_parser.h line 85). -/
def hash_magic_number : Nat := 37

/-- `SCPI_Parser::hash_magic_offset` (scpi_parser.h line 87). -/
def hash_magic_offset : Nat := 7

/-- `unknown_hash` (scpi_parser.h line 127). -/
def unknown_hash : Nat := 0

/-- `invalid_hash` (scpi_parser.h line 129). -/
def invalid_hash : Nat := 1

/-- `SCPI_MAX_TOKENS` (scpi_config.h line 49). -/
def max_tokens : Nat := 20

/-- `SCPI_MAX_COMMANDS` (scpi_config.h line 60). -/
def max_commands : Nat := 20

/-- `SCPI_BUFFER_LENGTH` (scpi_config.h line 83). -/
def buffer_length : Nat := 64

/-- `SCPI_ARRAY_SYZE` (scpi_config.h line 94): capacity of
`SCPI_String_Array` (command branches and parameters). -/
def storage_size : Nat := 6

/-- `SCPI_Parser::timeout` default (scpi_parser.h line 89), in ms. -/
def timeoutMs : Nat := 10

/-- `ErrorCode` (scpi_types.h). -/
inductive ErrorCode where
  | NoError
  | UnknownCommand
  | Timeout
  | BufferOverflow
  | MissingOrInvalidParameter
deriving DecidableEq, Repr

/-- The mutable state of a `SCPI_Parser` object (scpi_parser.h lines 102-155).
`tokens` is `tokens_` (its first `tokens_size_` entries), `codes` is
`valid_codes_` (its first `codes_size_` entries; the handler stored by the
`i`-th `RegisterCommand` call into `callers_[i]` is identified by the index
`i`), and `msg_buffer` is the first `message_length_` bytes of `msg_buffer_`
(the only bytes the code ever reads back). -/
structure ParserState where
  tokens : List (List Nat) := []
  codes : List Nat := []
  tree_code : Nat := 0
  tree_length : Nat := 0
  token_overflow : Bool := false
  command_overflow : Bool := false
  branch_overflow : Bool := false
  last_error : ErrorCode := ErrorCode.NoError
  msg_buffer : List Nat := []
  time_checker : Nat := 0
deriving DecidableEq, Repr

/-- A fresh `SCPI_Parser` object. -/
def initState : ParserState := {}

/-- `SCPI_Parser::AddToken_` (scpi_parser.cpp lines 66-86): drop (and flag)
when the store is full; strip one trailing `?`; suppress exact duplicates;
otherwise append. -/
def addToken (st : ParserState) (token : List Nat) : ParserState :=
  if max_tokens ≤ st.tokens.length then { st with token_overflow := true }
  else
    let tokenSize :=
      if token.getD (token.length - 1) 0 == questionB then token.length - 1
      else token.length
    let stored := token.take tokenSize
    if st.tokens.any (fun t => t == stored) then st
    else { st with tokens := st.tokens ++ [stored] }

/-- Is the last byte of `c` a query marker (`commands[i][header_length-1] ==
'?'` in `GetCommandCode_`, scpi_parser.cpp line 120)? -/
def qmark (c : List Nat) : Bool := c.getD (c.length - 1) 0 == questionB

/-- Length of a token's short form: its leading run of uppercase letters
(scpi_parser.cpp lines 129-131). -/
def shortLength : List Nat → Nat
  | [] => 0
  | b :: bs => if isupperB b then shortLength bs + 1 else 0

/-- The `while (isdigit(commands[i][header_length - 1])) header_length--`
loop of `GetCommandCode_` (scpi_parser.cpp lines 139-140). -/
def stripDigits (cmd : List Nat) : Nat → Nat
  | 0 => 0
  | k + 1 => if isdigitB (cmd.getD k 0) then stripDigits cmd k else k + 1

/-- One iteration of the inner `j` loop of `GetCommandCode_` (scpi_parser.cpp
lines 126-160), given the keyword's current `header_length` `h` (which
earlier numeric-suffix tokens may already have shortened): the
numeric-suffix adjustment, then short-form match (case-folded keyword bytes
against the raw token prefix) or, when the length fits the long form
instead, long-form match (both sides case-folded). -/
def tokenMatch (cmd : List Nat) (h : Nat) (tok : List Nat) : Bool :=
  let longLen := tok.length
  let strip := (tok.getD (longLen - 1) 0 == hashMarkB)
      && !(cmd.getD (h - 1) 0 == hashMarkB)
  let h2 := if strip then stripDigits cmd h else h
  let longLen2 := if strip then longLen - 1 else longLen
  let s := shortLength tok
  if h2 == s then (cmd.take s).map toupperB == tok.take s
  else if h2 == longLen2 then
    (cmd.take longLen2).map toupperB == (tok.take longLen2).map toupperB
  else false

/-- The effect of one inner-loop iteration on the keyword's mutable
`header_length` (scpi_parser.cpp lines 136-141): when the stored token ends
in `#` and the keyword's current last byte is not `#`, the keyword's
trailing digits are stripped.  In the C++ code this writes to the
`header_length` variable that is shared across the whole inner token loop,
so the shortened length persists for the comparisons against all later
stored tokens. -/
def headerAdjust (cmd : List Nat) (h : Nat) (tok : List Nat) : Nat :=
  if (tok.getD (tok.length - 1) 0 == hashMarkB)
      && !(cmd.getD (h - 1) 0 == hashMarkB) then stripDigits cmd h else h

/-- The inner `j` loop of `GetCommandCode_` (scpi_parser.cpp lines 126-172),
threading the mutable `header_length` across the stored tokens: digits
stripped by an earlier numeric-suffix token persist for every later
comparison.  Returns the index of the first stored token the keyword
matches; `none` is the `return unknown_hash` path taken after the last
stored token failed to match. -/
def firstMatch (cmd : List Nat) : Nat → List (List Nat) → Option Nat
  | _, [] => none
  | h, tok :: rest =>
    if tokenMatch cmd h tok then some 0
    else (firstMatch cmd (headerAdjust cmd h tok) rest).map (fun x => x + 1)

/-- `code = code * hash_magic_number + j` on `uint8_t` (scpi_parser.cpp lines
164-165). -/
def hashStep (code j : Nat) : Nat := (code * hash_magic_number + j) % 256

/-- `code = code * hash_magic_number - 1` on `uint8_t` (scpi_parser.cpp lines
176-177): subtracting 1 in uint8_t arithmetic is adding 255 mod 256. -/
def queryStep (code : Nat) : Nat := (code * hash_magic_number + 255) % 256

/-- The outer `i` loop of `GetCommandCode_` (scpi_parser.cpp lines 112-179):
`rest.isEmpty && qmark c` is the `is_query` flag (computed only for the last
keyword) and the second argument of `firstMatch` the adjusted
`header_length`.  When the token store is empty the inner `j` loop body
never runs, so such a keyword neither contributes a hash step nor forces
`unknown_hash`. -/
def getCodeLoop (tokens : List (List Nat)) : Nat → List (List Nat) → Nat
  | code, [] => code
  | code, c :: rest =>
    if tokens.isEmpty then
      getCodeLoop tokens
        (if rest.isEmpty && qmark c then queryStep code else code) rest
    else
      match firstMatch c
          (if rest.isEmpty && qmark c then c.length - 1 else c.length)
          tokens with
      | none => unknown_hash
      | some j =>
          getCodeLoop tokens
            (if rest.isEmpty && qmark c then queryStep (hashStep code j)
             else hashStep code j)
            rest

/-- `SCPI_Parser::GetCommandCode_` (scpi_parser.cpp lines 103-181). -/
def getCommandCode (tokens : List (List Nat)) (treeCode : Nat)
    (cmds : List (List Nat)) : Nat :=
  if treeCode == invalid_hash then invalid_hash
  else if cmds.length == 0 then unknown_hash
  else
    getCodeLoop tokens (if treeCode == 0 then hash_magic_offset else treeCode)
      cmds

/-- Result of the `SCPI_Commands` constructor: the (capacity-capped) token
array, the `not_processed_message` remainder, and the `overflow_error` flag. -/
structure CommandsResult where
  segments : List (List Nat)
  notProcessed : Option (List Nat)
  overflow : Bool
deriving DecidableEq, Repr

/-- Split on every occurrence of `delim`, keeping empty pieces (the repeated
`strpbrk`/truncate pattern of `SCPI_Parser::Execute`). -/
def splitOnChar (delim : Nat) : List Nat → List (List Nat)
  | [] => [[]]
  | b :: rest =>
    match splitOnChar delim rest with
    | [] => [[b]]
    | h :: t => if b == delim then [] :: h :: t else (b :: h) :: t

/-- `strtok` splitting: the maximal non-empty runs between `delim` bytes. -/
def strtokSplit (delim : Nat) (l : List Nat) : List (List Nat) :=
  (splitOnChar delim l).filter (fun p => !p.isEmpty)

/-- The two bytes `strpbrk(token, " \t")` looks for. -/
def isSpaceTab (b : Nat) : Bool := b == spaceB || b == tabB

/-- The `SCPI_Commands(char*)` constructor (SCPI types implementation, lines
203-223): trim leading `isspace` bytes, split off the command clause at the
first space or tab (the remainder is `not_processed_message`), then `strtok`
the clause on `:` and `Append` each token (the `SCPI_String_Array` caps the
array at `storage_size` entries and flags overflow). -/
def parseCommands (message : List Nat) : CommandsResult :=
  let t := message.dropWhile (fun b => isspaceB b)
  let clause := t.takeWhile (fun b => !(isSpaceTab b))
  let restRaw := t.dropWhile (fun b => !(isSpaceTab b))
  let notProcessed : Option (List Nat) :=
    match restRaw with
    | [] => none
    | _ :: r => some r
  let segs := strtokSplit colonB clause
  { segments := segs.take storage_size,
    notProcessed := notProcessed,
    overflow := decide (storage_size < segs.length) }

/-- The `SCPI_Parameters(char*)` constructor: `strtok` on `,`, trim leading
`isspace` bytes of each piece.  A `none` argument is the
`not_processed_message == NULL` case of `Execute`, where the continued
`strtok(NULL, ",")` yields no further tokens. -/
def parseParameters : Option (List Nat) → List (List Nat)
  | none => []
  | some rest =>
    ((strtokSplit commaB rest).map
      (fun p => p.dropWhile (fun b => isspaceB b))).take storage_size

/-- Observable calls made by the engine: `handler i` is the handler bound by
the `i`-th `RegisterCommand`, `errorCall` is the error-handler slot
(`callers_[max_commands]`). -/
inductive Event where
  | handler (idx : Nat) (cmds : List (List Nat)) (params : List (List Nat))
  | errorCall (cmds : List (List Nat)) (params : List (List Nat))
deriving DecidableEq, Repr

/-- `SCPI_Parser::SetCommandTreeBase` (scpi_parser.cpp lines 198-217). -/
def setCommandTreeBase (st : ParserState) (tree_base : List Nat) :
    ParserState :=
  let tt := parseCommands tree_base
  if tt.segments.length == 0 then { st with tree_code := 0, tree_length := 0 }
  else
    let st1 := tt.segments.foldl addToken st
    let code := getCommandCode st1.tokens 0 tt.segments
    let st2 := { st1 with tree_code := code, tree_length := tt.segments.length }
    if tt.overflow then
      { st2 with branch_overflow := true, tree_code := invalid_hash }
    else st2

/-- `SCPI_Parser::RegisterCommand` (scpi_parser.cpp lines 271-295).  The
handler passed by the caller goes into `callers_` at the index this
registration receives in `codes`. -/
def registerCommand (st : ParserState) (command : List Nat) : ParserState :=
  if max_commands ≤ st.codes.length then { st with command_overflow := true }
  else
    let ct := parseCommands command
    let st1 := ct.segments.foldl addToken st
    let code0 := getCommandCode st1.tokens st1.tree_code ct.segments
    let code1 := if code0 == unknown_hash then invalid_hash else code0
    let overflow := ct.overflow
        || decide (storage_size < st1.tree_length + ct.segments.length)
    let code2 := if overflow then invalid_hash else code1
    { st1 with
      codes := st1.codes ++ [code2],
      command_overflow := st1.command_overflow || overflow }

/-- One iteration of the `SCPI_Parser::Execute` loop body (scpi_parser.cpp
lines 382-399) on a single sub-command: reset the tree base, tokenize the
commands and the parameters, hash, then either report UnknownCommand, call
the first registered handler whose stored code equals the computed one, or
silently do nothing. -/
def executeOne (st : ParserState) (sub : List Nat) :
    ParserState × List Event :=
  let st1 := { st with tree_code := 0 }
  let cmds := parseCommands sub
  let params := parseParameters cmds.notProcessed
  let code := getCommandCode st1.tokens st1.tree_code cmds.segments
  if code == unknown_hash then
    ({ st1 with last_error := ErrorCode.UnknownCommand },
      [Event.errorCall cmds.segments params])
  else
    match st1.codes.findIdx? (fun c => c == code) with
    | some i => (st1, [Event.handler i cmds.segments params])
    | none => (st1, [])

/-- The `Execute` loop over the `;`-separated sub-commands, left to right. -/
def executeList (st : ParserState) :
    List (List Nat) → ParserState × List Event
  | [] => (st, [])
  | sub :: rest =>
    let r1 := executeOne st sub
    let r2 := executeList r1.1 rest
    (r2.1, r1.2 ++ r2.2)

/-- `SCPI_Parser::Execute` (scpi_parser.cpp lines 370-401): split the message
at every `;` (keeping empty pieces, as the `strpbrk` loop does) and process
the pieces left to right. -/
def execute (st : ParserState) (message : List Nat) :
    ParserState × List Event :=
  executeList st (splitOnChar semiB message)

/-- `strstr(buffer, needle) != NULL` on byte lists. -/
def containsSub (needle : List Nat) : List Nat → Bool
  | [] => needle.isEmpty
  | b :: rest => needle.isPrefixOf (b :: rest) || containsSub needle rest

/-- Result of one `SCPI_Parser::GetMessage` call: the new parser state, the
bytes left unread in the stream, the returned line (`NULL` return = `none`),
and the error-handler invocations made. -/
structure GetMessageResult where
  state : ParserState
  leftover : List Nat
  line : Option (List Nat)
  events : List Event
deriving DecidableEq, Repr

/-- `SCPI_Parser::GetMessage` (scpi_parser.cpp lines 438-508), with
`SCPI_MAX_SPECIAL_COMMANDS = 0` so the special-command block is compiled
out.  `stream` is the byte sequence the interface has available and `now`
the `millis()` value during the call.  Per received byte: append it at the
cursor, stamp the activity time, then check `message_length_ >=
buffer_length` first (buffer overflow: error call with freshly
default-constructed — empty — command and parameter arrays, cursor reset,
return NULL), and only then look for the terminator (strip it, reset the
cursor, return the line).  When no byte is available: nothing pending
returns NULL; a pending partial line older than the inactivity timeout
raises the Timeout error. -/
def getMessage (st : ParserState) (term : List Nat) (now : Nat) :
    List Nat → GetMessageResult
  | [] =>
    if st.msg_buffer.length == 0 then ⟨st, [], none, []⟩
    else if timeoutMs < now - st.time_checker then
      ⟨{ st with last_error := ErrorCode.Timeout, msg_buffer := [] }, [],
        none, [Event.errorCall [] []]⟩
    else ⟨st, [], none, []⟩
  | b :: rest =>
    let buf := st.msg_buffer ++ [b]
    let st1 := { st with msg_buffer := buf, time_checker := now }
    if buffer_length ≤ buf.length then
      ⟨{ st1 with last_error := ErrorCode.BufferOverflow, msg_buffer := [] },
        rest, none, [Event.errorCall [] []]⟩
    else if containsSub term buf then
      ⟨{ st1 with msg_buffer := [] }, rest,
        some (buf.take (buf.length - term.length)), []⟩
    else getMessage st1 term now rest

/-! ### Match traces

`segTrace`/`traceLoop` record, for a command token sequence, what
`GetCommandCode_` observes about it: per keyword, the index of the first
stored token it matches (or that the inner loop was skipped on an empty
store), plus the query flag of the last keyword; `none` when some keyword
matches no stored token.  `applyTrace` replays the hash steps of a trace. -/

/-- What `GetCommandCode_` observes about one keyword. -/
def segTrace (tokens : List (List Nat)) (c : List Nat) (isLast : Bool) :
    Option (Option Nat × Bool) :=
  if tokens.isEmpty then some (none, isLast && qmark c)
  else
    match firstMatch c
        (if isLast && qmark c then c.length - 1 else c.length) tokens with
    | none => none
    | some j => some (some j, isLast && qmark c)

/-- The match trace of a whole command token sequence. -/
def traceLoop (tokens : List (List Nat)) :
    List (List Nat) → Option (List (Option Nat × Bool))
  | [] => some []
  | c :: rest =>
    match segTrace tokens c rest.isEmpty with
    | none => none
    | some s =>
      match traceLoop tokens rest with
      | none => none
      | some t => some (s :: t)

/-- Replay of the hash accumulator updates recorded in a trace. -/
def applyTrace : Nat → List (Option Nat × Bool) → Nat
  | code, [] => code
  | code, s :: rest =>
    applyTrace
      (if s.2 then
        queryStep (match s.1 with | none => code | some j => hashStep code j)
       else match s.1 with | none => code | some j => hashStep code j)
      rest

theorem getCodeLoop_of_trace_none (tokens : List (List Nat)) :
    ∀ (cmds : List (List Nat)) (code : Nat),
      traceLoop tokens cmds = none →
      getCodeLoop tokens code cmds = unknown_hash := by
  intro cmds
  induction cmds with
  | nil => intro code h; simp [traceLoop] at h
  | cons c rest ih =>
    intro code h
    simp only [traceLoop, segTrace] at h
    simp only [getCodeLoop]
    by_cases ht : tokens.isEmpty
    · rw [if_pos ht] at h ⊢
      rcases hr : traceLoop tokens rest with _ | t
      · exact ih _ hr
      · rw [hr] at h; simp at h
    · rw [if_neg ht] at h ⊢
      rcases hm : firstMatch c
          (if rest.isEmpty && qmark c then c.length - 1 else c.length)
          tokens with
        _ | j
      · rfl
      · rw [hm] at h
        rcases hr : traceLoop tokens rest with _ | t
        · exact ih _ hr
        · rw [hr] at h; simp at h

theorem getCodeLoop_of_trace_some (tokens : List (List Nat)) :
    ∀ (cmds : List (List Nat)) (tr : List (Option Nat × Bool)) (code : Nat),
      traceLoop tokens cmds = some tr →
      getCodeLoop tokens code cmds = applyTrace code tr := by
  intro cmds
  induction cmds with
  | nil =>
    intro tr code h
    simp only [traceLoop, Option.some.injEq] at h
    subst h
    rfl
  | cons c rest ih =>
    intro tr code h
    simp only [traceLoop, segTrace] at h
    simp only [getCodeLoop]
    by_cases ht : tokens.isEmpty
    · rw [if_pos ht] at h ⊢
      rcases hr : traceLoop tokens rest with _ | t
      · rw [hr] at h; simp at h
      · rw [hr] at h
        simp only [Option.some.injEq] at h
        subst h
        simp only [applyTrace]
        exact ih _ _ hr
    · rw [if_neg ht] at h ⊢
      rcases hm : firstMatch c
          (if rest.isEmpty && qmark c then c.length - 1 else c.length)
          tokens with
        _ | j
      · rw [hm] at h; simp at h
      · rw [hm] at h
        rcases hr : traceLoop tokens rest with _ | t
        · rw [hr] at h; simp at h
        · rw [hr] at h
          simp only [Option.some.injEq] at h
          subst h
          simp only [applyTrace]
          exact ih _ _ hr

theorem traceLoop_some_nil_iff (tokens : List (List Nat))
    (cmds : List (List Nat)) :
    traceLoop tokens cmds = some [] ↔ cmds = [] := by
  constructor
  · intro h
    cases cmds with
    | nil => rfl
    | cons c rest =>
      simp only [traceLoop] at h
      rcases hs : segTrace tokens c rest.isEmpty with _ | s
      · simp [hs] at h
      · rcases hr : traceLoop tokens rest with _ | t
        · simp [hs, hr] at h
        · simp [hs, hr] at h
  · intro h; subst h; rfl

/-- `GetCommandCode_` is a function of the tree-base context and the match
trace alone. -/
theorem getCommandCode_of_trace (tokens : List (List Nat)) (tree : Nat)
    (cmds1 cmds2 : List (List Nat))
    (h : traceLoop tokens cmds1 = traceLoop tokens cmds2) :
    getCommandCode tokens tree cmds1 = getCommandCode tokens tree cmds2 := by
  by_cases htree : (tree == invalid_hash) = true
  · unfold getCommandCode
    rw [if_pos htree, if_pos htree]
  · rcases htr : traceLoop tokens cmds1 with _ | tr
    · rw [htr] at h
      have hc1 : cmds1 ≠ [] := by
        intro hn; subst hn; simp [traceLoop] at htr
      have hc2 : cmds2 ≠ [] := by
        intro hn; subst hn; simp [traceLoop] at h
      have h0 : ¬((cmds1.length == 0) = true) := by
        simp [List.length_eq_zero, hc1]
      have h0' : ¬((cmds2.length == 0) = true) := by
        simp [List.length_eq_zero, hc2]
      unfold getCommandCode
      rw [if_neg htree, if_neg htree, if_neg h0, if_neg h0',
        getCodeLoop_of_trace_none tokens cmds1 _ htr,
        getCodeLoop_of_trace_none tokens cmds2 _ h.symm]
    · rw [htr] at h
      cases tr with
      | nil =>
        have hc1 : cmds1 = [] := (traceLoop_some_nil_iff tokens cmds1).1 htr
        have hc2 : cmds2 = [] := (traceLoop_some_nil_iff tokens cmds2).1 h.symm
        subst hc1; subst hc2; rfl
      | cons s t =>
        have hc1 : cmds1 ≠ [] := by
          intro hn; subst hn; simp [traceLoop] at htr
        have hc2 : cmds2 ≠ [] := by
          intro hn; subst hn; simp [traceLoop] at h
        have h0 : ¬((cmds1.length == 0) = true) := by
          simp [List.length_eq_zero, hc1]
        have h0' : ¬((cmds2.length == 0) = true) := by
          simp [List.length_eq_zero, hc2]
        unfold getCommandCode
        rw [if_neg htree, if_neg htree, if_neg h0, if_neg h0',
          getCodeLoop_of_trace_some tokens cmds1 (s :: t) _ htr,
          getCodeLoop_of_trace_some tokens cmds2 (s :: t) _ h.symm]

/-! ### Case insensitivity

Bytes that agree after `toupperB` drive every observation `GetCommandCode_`
makes about a keyword to the same outcome. -/

theorem toupperB_eq_low {a k : Nat} (hk : k < 65) :
    toupperB a = k ↔ a = k := by
  unfold toupperB islowerB
  split
  · rename_i hl
    rw [decide_eq_true_iff] at hl
    omega
  · exact Iff.rfl

theorem isdigitB_toupperB (a : Nat) : isdigitB (toupperB a) = isdigitB a := by
  unfold toupperB islowerB isdigitB
  split
  · rename_i hl
    rw [decide_eq_true_iff] at hl
    rw [decide_eq_decide]
    omega
  · rfl

theorem beq_low_congr {a b k : Nat} (hk : k < 65)
    (h : toupperB a = toupperB b) : (a == k) = (b == k) := by
  by_cases ha : a = k
  · have hbk : b = k := by
      rw [← toupperB_eq_low hk, ← h, toupperB_eq_low hk]
      exact ha
    simp [ha, hbk]
  · have hbk : ¬b = k := by
      intro hb
      exact ha (by rw [← toupperB_eq_low hk, h, toupperB_eq_low hk]; exact hb)
    simp [ha, hbk]

theorem toupperB_zero : toupperB 0 = 0 := by decide

theorem getD_map_toupperB (l : List Nat) (k : Nat) :
    (l.map toupperB).getD k 0 = toupperB (l.getD k 0) := by
  induction l generalizing k with
  | nil => simp [toupperB_zero]
  | cons a l ih =>
    cases k with
    | zero => rfl
    | succ k => simpa using ih k

theorem getD_toupperB_congr {c d : List Nat}
    (h : c.map toupperB = d.map toupperB) (k : Nat) :
    toupperB (c.getD k 0) = toupperB (d.getD k 0) := by
  rw [← getD_map_toupperB, ← getD_map_toupperB, h]

theorem stripDigits_congr {c d : List Nat}
    (h : c.map toupperB = d.map toupperB) :
    ∀ n, stripDigits c n = stripDigits d n := by
  intro n
  induction n with
  | zero => rfl
  | succ k ih =>
    unfold stripDigits
    have hd : isdigitB (c.getD k 0) = isdigitB (d.getD k 0) := by
      rw [← isdigitB_toupperB (c.getD k 0), ← isdigitB_toupperB (d.getD k 0),
        getD_toupperB_congr h]
    rw [hd]
    split
    · exact ih
    · rfl

theorem length_toupperB_congr {c d : List Nat}
    (h : c.map toupperB = d.map toupperB) : c.length = d.length := by
  have := congrArg List.length h
  simpa using this

theorem tokenMatch_congr {c d : List Nat}
    (h : c.map toupperB = d.map toupperB) (n : Nat) (tok : List Nat) :
    tokenMatch c n tok = tokenMatch d n tok := by
  have hsharp : (c.getD (n - 1) 0 == hashMarkB)
      = (d.getD (n - 1) 0 == hashMarkB) :=
    beq_low_congr (by decide) (getD_toupperB_congr h (n - 1))
  have htake : ∀ m, (c.take m).map toupperB = (d.take m).map toupperB := by
    intro m
    rw [List.map_take, List.map_take, h]
  simp only [tokenMatch, hsharp, stripDigits_congr h, htake]

theorem headerAdjust_congr {c d : List Nat}
    (h : c.map toupperB = d.map toupperB) (n : Nat) (tok : List Nat) :
    headerAdjust c n tok = headerAdjust d n tok := by
  have hsharp : (c.getD (n - 1) 0 == hashMarkB)
      = (d.getD (n - 1) 0 == hashMarkB) :=
    beq_low_congr (by decide) (getD_toupperB_congr h (n - 1))
  unfold headerAdjust
  rw [hsharp, stripDigits_congr h]

theorem firstMatch_congr {c d : List Nat}
    (h : c.map toupperB = d.map toupperB) (tokens : List (List Nat)) :
    ∀ n, firstMatch c n tokens = firstMatch d n tokens := by
  induction tokens with
  | nil => intro n; rfl
  | cons tok rest ih =>
    intro n
    simp only [firstMatch]
    rw [tokenMatch_congr h n tok, headerAdjust_congr h n tok, ih]

theorem qmark_congr {c d : List Nat}
    (h : c.map toupperB = d.map toupperB) : qmark c = qmark d := by
  unfold qmark
  rw [length_toupperB_congr h]
  exact beq_low_congr (by decide) (getD_toupperB_congr h (d.length - 1))

theorem segTrace_congr {c d : List Nat}
    (h : c.map toupperB = d.map toupperB) (tokens : List (List Nat))
    (isLast : Bool) : segTrace tokens c isLast = segTrace tokens d isLast := by
  unfold segTrace
  rw [qmark_congr h, length_toupperB_congr h, firstMatch_congr h tokens]

theorem traceLoop_upper_congr (tokens : List (List Nat)) :
    ∀ (cmds1 cmds2 : List (List Nat)),
      cmds1.map (List.map toupperB) = cmds2.map (List.map toupperB) →
      traceLoop tokens cmds1 = traceLoop tokens cmds2 := by
  intro cmds1
  induction cmds1 with
  | nil =>
    intro cmds2 h
    have : cmds2 = [] := by
      cases cmds2 with
      | nil => rfl
      | cons d r2 => simp at h
    subst this
    rfl
  | cons c r ih =>
    intro cmds2 h
    cases cmds2 with
    | nil => simp at h
    | cons d r2 =>
      simp only [List.map_cons, List.cons.injEq] at h
      have hlen : r.isEmpty = r2.isEmpty := by
        have : r.length = r2.length := by
          have := congrArg List.length h.2
          simpa using this
        cases r with
        | nil => cases r2 with
          | nil => rfl
          | cons _ _ => simp at this
        | cons _ _ => cases r2 with
          | nil => simp at this
          | cons _ _ => rfl
      simp only [traceLoop]
      rw [segTrace_congr h.1, hlen, ih r2 h.2]

/-- `GetCommandCode_` is insensitive to the letter case of the incoming
keywords. -/
theorem getCommandCode_upper_congr (tokens : List (List Nat)) (tree : Nat)
    (cmds1 cmds2 : List (List Nat))
    (h : cmds1.map (List.map toupperB) = cmds2.map (List.map toupperB)) :
    getCommandCode tokens tree cmds1 = getCommandCode tokens tree cmds2 :=
  getCommandCode_of_trace tokens tree cmds1 cmds2
    (traceLoop_upper_congr tokens cmds1 cmds2 h)

/-! ### Message framer lemmas -/

theorem containsSub_append_self (term L : List Nat) :
    containsSub term (L ++ term) = true := by
  induction L with
  | nil =>
    cases term with
    | nil => rfl
    | cons b r =>
      simp only [List.nil_append, containsSub, Bool.or_eq_true]
      left
      simp [List.isPrefixOf_iff_prefix]
  | cons a L ih =>
    simp only [List.cons_append, containsSub, List.append_eq, ih, Bool.or_true]

theorem length_le_of_containsSub {term l : List Nat}
    (h : containsSub term l = true) : term.length ≤ l.length := by
  induction l with
  | nil =>
    simp only [containsSub, List.isEmpty_iff] at h
    simp [h]
  | cons b rest ih =>
    simp only [containsSub, Bool.or_eq_true] at h
    rcases h with h | h
    · exact (List.isPrefixOf_iff_prefix.mp h).length_le
    · have := ih h
      simp only [List.length_cons]
      omega

/-- A full buffer is reported as soon as the cursor reaches
`buffer_length`, before the terminator test: consuming bytes from a stream
that shows no terminator while the cursor is below capacity raises
BufferOverflow once, resets the cursor, returns no line and leaves the rest
of the stream unread. -/
theorem getMessage_overflow (term : List Nat) (now : Nat) :
    ∀ (stream : List Nat) (st : ParserState),
      st.msg_buffer.length ≤ 63 →
      64 ≤ st.msg_buffer.length + stream.length →
      (∀ i, 1 ≤ i → st.msg_buffer.length + i ≤ 63 →
          containsSub term (st.msg_buffer ++ stream.take i) = false) →
      getMessage st term now stream =
        ⟨{ st with msg_buffer := [], last_error := ErrorCode.BufferOverflow, time_checker := now },
          stream.drop (64 - st.msg_buffer.length), none,
          [Event.errorCall [] []]⟩ := by
  intro stream
  induction stream with
  | nil =>
    intro st h1 h2 h3
    simp only [List.length_nil] at h2
    omega
  | cons b rest ih =>
    intro st h1 h2 h3
    simp only [getMessage]
    by_cases hov : buffer_length ≤ (st.msg_buffer ++ [b]).length
    · rw [if_pos hov]
      have hlen : st.msg_buffer.length = 63 := by
        simp only [buffer_length, List.length_append, List.length_cons,
          List.length_nil] at hov
        omega
      have hdrop : (b :: rest).drop (64 - st.msg_buffer.length) = rest := by
        rw [hlen]
        rfl
      rw [hdrop]
    · rw [if_neg hov]
      have hle : st.msg_buffer.length + 1 ≤ 63 := by
        simp only [buffer_length, List.length_append, List.length_cons,
          List.length_nil] at hov
        omega
      have hfalse : containsSub term (st.msg_buffer ++ [b]) = false :=
        h3 1 (le_refl 1) hle
      rw [hfalse]
      simp only [Bool.false_eq_true, if_false]
      have key := ih { st with msg_buffer := st.msg_buffer ++ [b], time_checker := now }
        (by simpa using hle)
        (by simp only [List.length_append, List.length_cons,
              List.length_nil] at h2 ⊢; omega)
        (by
          intro i hi hile
          simp only [List.length_append, List.length_cons,
            List.length_nil] at hile
          have hh := h3 (i + 1) (by omega) (by omega)
          rw [List.take_succ_cons, List.append_cons] at hh
          exact hh)
      rw [key]
      have harith : 64 - (st.msg_buffer ++ [b]).length
          = 63 - st.msg_buffer.length := by
        simp only [List.length_append, List.length_cons, List.length_nil]
        omega
      have harith2 : 64 - st.msg_buffer.length
          = (63 - st.msg_buffer.length) + 1 := by omega
      rw [harith2, List.drop_succ_cons]
      congr 2

/-- A stream whose bytes fit the buffer and whose first terminator
occurrence completes exactly at its end is consumed whole; the line before
the terminator is returned and the cursor reset. -/
theorem getMessage_line (term : List Nat) (now : Nat) :
    ∀ (stream : List Nat) (st : ParserState),
      stream ≠ [] →
      st.msg_buffer.length + stream.length ≤ 63 →
      (∀ i, 1 ≤ i → i < stream.length →
          containsSub term (st.msg_buffer ++ stream.take i) = false) →
      containsSub term (st.msg_buffer ++ stream) = true →
      getMessage st term now stream =
        ⟨{ st with msg_buffer := [], time_checker := now }, [],
          some ((st.msg_buffer ++ stream).take
            (st.msg_buffer.length + stream.length - term.length)), []⟩ := by
  intro stream
  induction stream with
  | nil => intro st hne; exact absurd rfl hne
  | cons b rest ih =>
    intro st _ h2 h3 h4
    simp only [getMessage]
    have hov : ¬(buffer_length ≤ (st.msg_buffer ++ [b]).length) := by
      simp only [buffer_length, List.length_append, List.length_cons,
        List.length_nil] at h2 ⊢
      omega
    rw [if_neg hov]
    cases rest with
    | nil =>
      have hc : containsSub term (st.msg_buffer ++ [b]) = true := h4
      rw [hc]
      have hre : (st.msg_buffer ++ [b]).length
          = st.msg_buffer.length + [b].length := List.length_append _ _
      simp only [if_true, hre, List.length_cons, List.length_nil]
    | cons b2 rest2 =>
      have hc : containsSub term (st.msg_buffer ++ [b]) = false := by
        have hh := h3 1 (le_refl 1) (by simp)
        rw [List.take_succ_cons, List.take_zero] at hh
        exact hh
      rw [hc]
      simp only [Bool.false_eq_true, if_false]
      have key := ih { st with msg_buffer := st.msg_buffer ++ [b], time_checker := now }
        (by simp)
        (by simp only [List.length_append, List.length_cons,
              List.length_nil] at h2 ⊢; omega)
        (by
          intro i hi hilt
          simp only [List.length_cons] at hilt
          have hh := h3 (i + 1) (by omega)
            (by simp only [List.length_cons]; omega)
          rw [List.take_succ_cons, List.append_cons] at hh
          exact hh)
        (by rw [← List.append_cons]; exact h4)
      rw [key]
      congr 2
      rw [← List.append_cons]
      congr 1
      simp only [List.length_append, List.length_cons, List.length_nil]
      omega

/-- The cursor never exceeds 63 = `buffer_length - 1`: every stored byte is
written at an index below `buffer_length`. -/
theorem getMessage_buffer_le (term : List Nat) (now : Nat) :
    ∀ (stream : List Nat) (st : ParserState),
      st.msg_buffer.length ≤ 63 →
      (getMessage st term now stream).state.msg_buffer.length ≤ 63 := by
  intro stream
  induction stream with
  | nil =>
    intro st h
    simp only [getMessage]
    split
    · exact h
    · split
      · simp
      · exact h
  | cons b rest ih =>
    intro st h
    simp only [getMessage]
    split
    · simp
    · split
      · simp
      · rename_i hov _
        apply ih
        simp only [buffer_length, List.length_append, List.length_cons,
          List.length_nil] at hov ⊢
        omega

/-- Any returned line, together with the terminator that ended it, fits in
63 bytes. -/
theorem getMessage_line_length (term : List Nat) (now : Nat) :
    ∀ (stream : List Nat) (st : ParserState) (L : List Nat),
      st.msg_buffer.length ≤ 63 →
      (getMessage st term now stream).line = some L →
      L.length + term.length ≤ 63 := by
  intro stream
  induction stream with
  | nil =>
    intro st L _ hline
    simp only [getMessage] at hline
    split at hline
    · simp at hline
    · split at hline
      · simp at hline
      · simp at hline
  | cons b rest ih =>
    intro st L h hline
    simp only [getMessage] at hline
    split at hline
    · simp at hline
    · split at hline
      · rename_i hov hc
        simp only [Option.some.injEq] at hline
        subst hline
        have ht := length_le_of_containsSub hc
        simp only [buffer_length] at hov
        simp only [List.length_take]
        omega
      · rename_i hov hc
        apply ih { st with msg_buffer := st.msg_buffer ++ [b], time_checker := now } L _ hline
        simp only [buffer_length, List.length_append, List.length_cons,
          List.length_nil] at hov ⊢
        omega

/-! ### Dispatcher lemmas -/

theorem firstMatch_lt {cmd : List Nat} :
    ∀ {tokens : List (List Nat)} {n j : Nat},
      firstMatch cmd n tokens = some j → j < tokens.length := by
  intro tokens
  induction tokens with
  | nil => intro n j h; simp [firstMatch] at h
  | cons tok rest ih =>
    intro n j h
    simp only [firstMatch] at h
    split at h
    · simp only [Option.some.injEq] at h
      subst h
      simp
    · simp only [Option.map_eq_some'] at h
      obtain ⟨j2, hj2, hadd⟩ := h
      subst hadd
      have := ih hj2
      simp only [List.length_cons]
      omega

theorem findIdx?_eq_none_of_forall {l : List Nat} {p : Nat → Bool}
    (h : ∀ c ∈ l, p c = false) : l.findIdx? p = none :=
  List.findIdx?_eq_none_iff.mpr h

/-- The `Execute` loop body on a sub-command whose code is `unknown_hash`:
record UnknownCommand, call the error handler with the parsed commands and
parameters, and move on. -/
theorem executeOne_unknown (st : ParserState) (sub : List Nat)
    (h : getCommandCode st.tokens 0 (parseCommands sub).segments
      = unknown_hash) :
    executeOne st sub =
      ({ st with tree_code := 0, last_error := ErrorCode.UnknownCommand },
        [Event.errorCall (parseCommands sub).segments
          (parseParameters (parseCommands sub).notProcessed)]) := by
  have h2 : getCommandCode ({ st with tree_code := 0 } : ParserState).tokens
      ({ st with tree_code := 0 } : ParserState).tree_code
      (parseCommands sub).segments = unknown_hash := h
  simp only [executeOne, h2]
  rfl

/-- The `Execute` loop body on a sub-command whose code is neither
`unknown_hash` nor any stored code: no call at all, the state only has its
tree base reset. -/
theorem executeOne_nomatch (st : ParserState) (sub : List Nat)
    (h : getCommandCode st.tokens 0 (parseCommands sub).segments
      ≠ unknown_hash)
    (h2 : ∀ c ∈ st.codes,
      c ≠ getCommandCode st.tokens 0 (parseCommands sub).segments) :
    executeOne st sub = ({ st with tree_code := 0 }, []) := by
  have h' : ((getCommandCode ({ st with tree_code := 0 } : ParserState).tokens
      ({ st with tree_code := 0 } : ParserState).tree_code
      (parseCommands sub).segments == unknown_hash)) = false := by
    simp only [beq_eq_false_iff_ne, ne_eq]
    exact h
  have hidx : (({ st with tree_code := 0 } : ParserState).codes.findIdx?
      (fun c => c == getCommandCode
        ({ st with tree_code := 0 } : ParserState).tokens
        ({ st with tree_code := 0 } : ParserState).tree_code
        (parseCommands sub).segments)) = none := by
    apply findIdx?_eq_none_of_forall
    intro c hc
    simp only [beq_eq_false_iff_ne, ne_eq]
    exact h2 c hc
  simp only [executeOne, h', Bool.false_eq_true, if_false, hidx]

/-- The `Execute` loop body on a sub-command whose code is found among the
stored codes at first-match index `i`: handler `i` is called with the
parsed commands and parameters. -/
theorem executeOne_found (st : ParserState) (sub : List Nat) (i : Nat)
    (h : getCommandCode st.tokens 0 (parseCommands sub).segments
      ≠ unknown_hash)
    (hidx : st.codes.findIdx? (fun c => c == getCommandCode st.tokens 0
      (parseCommands sub).segments) = some i) :
    executeOne st sub = ({ st with tree_code := 0 },
      [Event.handler i (parseCommands sub).segments
        (parseParameters (parseCommands sub).notProcessed)]) := by
  have h' : ((getCommandCode ({ st with tree_code := 0 } : ParserState).tokens
      ({ st with tree_code := 0 } : ParserState).tree_code
      (parseCommands sub).segments == unknown_hash)) = false := by
    simp only [beq_eq_false_iff_ne, ne_eq]
    exact h
  have hidx' : (({ st with tree_code := 0 } : ParserState).codes.findIdx?
      (fun c => c == getCommandCode
        ({ st with tree_code := 0 } : ParserState).tokens
        ({ st with tree_code := 0 } : ParserState).tree_code
        (parseCommands sub).segments)) = some i := hidx
  simp only [executeOne, h', Bool.false_eq_true, if_false, hidx']

theorem findIdx?_append_singleton {l : List Nat} {a : Nat} {p : Nat → Bool}
    (hl : ∀ c ∈ l, p c = false) (ha : p a = true) :
    (l ++ [a]).findIdx? p = some l.length := by
  induction l with
  | nil => simp [List.findIdx?_cons, ha]
  | cons c l ih =>
    simp only [List.cons_append, List.findIdx?_cons, hl c (by simp),
      Bool.false_eq_true, if_false, List.findIdx?_start_succ]
    rw [ih (fun x hx => hl x (by simp [hx]))]
    simp

/-! ### Registration lemmas -/

/-- The token text `AddToken_` stores: its argument with one trailing `?`
stripped (scpi_parser.cpp lines 73-76). -/
def strippedToken (token : List Nat) : List Nat :=
  token.take
    (if token.getD (token.length - 1) 0 == questionB then token.length - 1
     else token.length)

/-- The branch-overflow condition of `RegisterCommand` (scpi_parser.cpp
lines 286-287). -/
def regOverflow (st : ParserState) (command : List Nat) : Bool :=
  (parseCommands command).overflow
    || decide (storage_size
        < st.tree_length + (parseCommands command).segments.length)

/-- The code a `RegisterCommand` call stores when its keywords add no new
token: the hash computed over the current store, demoted to `invalid_hash`
exactly by the source's two rules — branch overflow, or a computed
`unknown_hash` (scpi_parser.cpp lines 283-290).  The token-overflow flag
plays no part. -/
def regStoredCode (st : ParserState) (command : List Nat) : Nat :=
  if regOverflow st command then invalid_hash
  else if getCommandCode st.tokens st.tree_code
      (parseCommands command).segments == unknown_hash then invalid_hash
  else getCommandCode st.tokens st.tree_code (parseCommands command).segments

/-- `AddToken_` is a no-op on a token whose stored text is already present,
once the overflow flag is set (the flag write in the full-store branch then
changes nothing). -/
theorem addToken_noop (st : ParserState) (token : List Nat)
    (hov : st.token_overflow = true)
    (hmem : strippedToken token ∈ st.tokens) :
    addToken st token = st := by
  have hany : (st.tokens.any (fun t =>
      t == token.take (if token.getD (token.length - 1) 0 == questionB
        then token.length - 1 else token.length))) = true := by
    rw [List.any_eq_true]
    refine ⟨strippedToken token, hmem, ?_⟩
    simp [strippedToken]
  simp only [addToken]
  by_cases hcap : max_tokens ≤ st.tokens.length
  · rw [if_pos hcap]
    cases st
    simp only [ParserState.mk.injEq]
    simp_all
  · rw [if_neg hcap, if_pos hany]

theorem foldl_addToken_noop (st : ParserState) :
    ∀ (segs : List (List Nat)),
      st.token_overflow = true →
      (∀ seg ∈ segs, strippedToken seg ∈ st.tokens) →
      segs.foldl addToken st = st := by
  intro segs
  induction segs with
  | nil => intro _ _; rfl
  | cons seg rest ih =>
    intro hov hmem
    simp only [List.foldl_cons]
    rw [addToken_noop st seg hov (hmem seg (by simp))]
    exact ih hov (fun s hs => hmem s (by simp [hs]))

/-- A `RegisterCommand` whose keywords are all already stored (issued after
the token-overflow flag is set) leaves the token store unchanged and
appends exactly `regStoredCode`, whose computation ignores the flag. -/
theorem registerCommand_known (st : ParserState) (command : List Nat)
    (hov : st.token_overflow = true)
    (hfit : st.codes.length < max_commands)
    (hmem : ∀ seg ∈ (parseCommands command).segments,
      strippedToken seg ∈ st.tokens) :
    registerCommand st command
      = { st with codes := st.codes ++ [regStoredCode st command], command_overflow := st.command_overflow || regOverflow st command } := by
  simp only [registerCommand]
  rw [if_neg (by omega)]
  rw [foldl_addToken_noop st (parseCommands command).segments hov hmem]
  simp only [regStoredCode, regOverflow]

/-! ### Concrete data for the claims -/

/-- Bytes of the tree-base string `"SYSTem"`. -/
def sysStr : List Nat := bytes ("SYSTem")

/-- Bytes of the registration string `":ERRor?"`. -/
def errQStr : List Nat := bytes (":ERRor?")

/-- Bytes of the registration string `"SYSTem:ERRor?"`. -/
def sysErrQStr : List Nat := bytes ("SYSTem:ERRor?")

/-- Bytes of the registration string `"*IDN?"`. -/
def idnQStr : List Nat := bytes ("*IDN?")

/-- The input line of claim C5. -/
def c5Line : List Nat := bytes ("*IDN?;SYSTem:ERRor?")

/-- Parser with `*IDN?` registered as command 0 and `SYSTem:ERRor?` as
command 1. -/
def c5State : ParserState :=
  registerCommand (registerCommand initState idnQStr) sysErrQStr

/-- A token store holding the numeric-suffix token `CHANnel#`. -/
def chanTokens : List (List Nat) := [bytes ("CHANnel#")]

/-- A token store holding `AB` and `ABcd`: `AB` is both a stored token and
the short form of the stored token `ABcd`. -/
def c1Tokens : List (List Nat) := [bytes ("AB"), bytes ("ABcd")]

/-! ### Claims C1, C2, C3, C5 -/

/-- Claim C1, counterexample.  `AB` is the short form of the registered
keyword `ABcd` and `ABCD` its (upper-cased) long form, and neither carries a
query marker; yet with the token store `[AB, ABcd]` the single-keyword
commands `AB` and `ABCD` hash to different codes, because `AB` first matches
the distinct stored token `AB` (index 0) while `ABCD` matches `ABcd`
(index 1).  So choosing the short form over the long form of the same
registered keyword can change the command code. -/
theorem claim_C1_counterexample :
    bytes ("AB") = (bytes ("ABcd")).take (shortLength (bytes ("ABcd"))) ∧
    bytes ("ABCD") = (bytes ("ABcd")).map toupperB ∧
    qmark (bytes ("AB")) = false ∧ qmark (bytes ("ABCD")) = false ∧
    getCommandCode c1Tokens 0 [bytes ("AB")]
      ≠ getCommandCode c1Tokens 0 [bytes ("ABCD")] := by decide

/-- Claim C1 (amended).  `GetCommandCode_` is deterministic and depends only
on the tree-base context, the match trace — the first-matching stored-token
index of each keyword, in order — and the trailing query marker.  In
particular (first conjunct) two command token sequences that differ only in
letter case always hash to the same code; and two sequences that differ in
short vs long form of the same registered keyword hash to the same code
whenever the two forms still resolve to the same match trace (second
conjunct) — a condition the counterexample shows is not automatic, and
without which the codes can differ. -/
theorem claim_C1_amended :
    (∀ (tokens : List (List Nat)) (tree : Nat)
        (cmds1 cmds2 : List (List Nat)),
        cmds1.map (List.map toupperB) = cmds2.map (List.map toupperB) →
        getCommandCode tokens tree cmds1 = getCommandCode tokens tree cmds2) ∧
    (∀ (tokens : List (List Nat)) (tree : Nat)
        (cmds1 cmds2 : List (List Nat)),
        traceLoop tokens cmds1 = traceLoop tokens cmds2 →
        getCommandCode tokens tree cmds1 = getCommandCode tokens tree cmds2) :=
  ⟨getCommandCode_upper_congr, getCommandCode_of_trace⟩

/-- Witness for claim C1: a concrete case change (`sySTem?` vs `SYSTEM?`)
and a concrete short/long-form pair with equal traces (`SYST` vs `SYSTem`)
both yield equal codes. -/
theorem claim_C1_witness :
    ([bytes ("sySTem?")].map (List.map toupperB)
        = [bytes ("SYSTEM?")].map (List.map toupperB)) ∧
    getCommandCode [sysStr] 0 [bytes ("sySTem?")]
      = getCommandCode [sysStr] 0 [bytes ("SYSTEM?")] ∧
    traceLoop [sysStr] [bytes ("SYST")] = traceLoop [sysStr] [sysStr] ∧
    getCommandCode [sysStr] 3 [bytes ("SYST")]
      = getCommandCode [sysStr] 3 [sysStr] :=
  ⟨by decide, claim_C1_amended.1 [sysStr] 0 _ _ (by decide), by decide,
    claim_C1_amended.2 [sysStr] 3 _ _ (by decide)⟩

/-- Claim C2: `SetCommandTreeBase("SYSTem")` followed by
`RegisterCommand(":ERRor?")` stores the same command code for that
registration as `RegisterCommand("SYSTem:ERRor?")` with the tree base at
root. -/
theorem claim_C2 :
    (registerCommand (setCommandTreeBase initState sysStr) errQStr).codes
      = (registerCommand initState sysErrQStr).codes := by decide

/-- Claim C3, counterexample.  With `CHANnel#` in the token store, the
single-keyword command `CHAN` does NOT hash to the unknown code: it matches
the short form `CHAN` of `CHANnel#` (the numeric-suffix adjustment strips no
digits and the remaining four bytes fit the short form), contradicting the
claim that `CHAN` yields the unknown code. -/
theorem claim_C3_counterexample :
    getCommandCode chanTokens 0 [bytes ("CHAN")] ≠ unknown_hash := by decide

/-- Claim C3 (amended): with `CHANnel#` stored, `CHAN3` and `CHANNEL12`
match and hash to a non-unknown code, `CHANNELX` hashes to the unknown
code, and the bare short form `CHAN` also matches, with the same code as
`CHAN3`. -/
theorem claim_C3_amended :
    getCommandCode chanTokens 0 [bytes ("CHAN3")] ≠ unknown_hash ∧
    getCommandCode chanTokens 0 [bytes ("CHANNEL12")] ≠ unknown_hash ∧
    getCommandCode chanTokens 0 [bytes ("CHANNELX")] = unknown_hash ∧
    getCommandCode chanTokens 0 [bytes ("CHAN")]
      = getCommandCode chanTokens 0 [bytes ("CHAN3")] := by decide

/-- Claim C5: executing the line `*IDN?;SYSTem:ERRor?` with both commands
registered invokes exactly two handlers, the `*IDN?` handler (index 0)
first and the `SYSTem:ERRor?` handler (index 1) second, each with an empty
parameter list. -/
theorem claim_C5 :
    (execute c5State c5Line).2 =
      [Event.handler 0 [bytes ("*IDN?")] [],
       Event.handler 1 [bytes ("SYSTem"), bytes ("ERRor?")] []] := by decide

/-! ### Claims C4, C6, C7, C9 -/

/-- The registrations of the C4 counterexample: fourteen single-keyword
commands and one seven-branch command that overflows the branch array and is
demoted to the invalid code. -/
def c4Cmds : List (List Nat) :=
  [bytes ("TA"), bytes ("TB"), bytes ("TC"), bytes ("TD"), bytes ("TE"),
   bytes ("TF"), bytes ("TG"), bytes ("TH"), bytes ("TI"), bytes ("TJ"),
   bytes ("TK"), bytes ("TL"), bytes ("TM"), bytes ("TN"),
   bytes ("A:B:C:D:E:F:G")]

/-- Parser state after the C4 registrations. -/
def c4State : ParserState := c4Cmds.foldl registerCommand initState

/-- The dispatched line of the C4 and C9 counterexamples. -/
def tgtnQStr : List Nat := bytes ("TG:TN?")

/-- Claim C4, counterexample.  In `c4State`, registration 14
(`A:B:C:D:E:F:G`) was demoted to the invalid code; yet dispatch-time hashing
of the real input `TG:TN?` (tree base reset to root) produces exactly the
invalid code 1 — the 8-bit accumulator wraps around
(`((7*37+6)*37+13)*37 - 1 ≡ 1 (mod 256)`) — and `Execute` therefore invokes
the demoted registration's handler: the handler is not permanently
unreachable. -/
theorem claim_C4_counterexample :
    c4State.codes.getD 14 0 = invalid_hash ∧
    getCommandCode c4State.tokens 0 (parseCommands tgtnQStr).segments
      = invalid_hash ∧
    (execute c4State tgtnQStr).2
      = [Event.handler 14 [bytes ("TG"), bytes ("TN?")] []] := by decide

/-- Claim C4 (amended).  With at most `max_tokens` = 20 stored tokens,
dispatch-time hashing (tree base 0) of a command of at most one keyword can
never produce the reserved invalid code; for longer commands the 8-bit
accumulator can wrap onto the invalid code (see the counterexample), so a
registration demoted to invalid is not unreachable in general. -/
theorem claim_C4_amended :
    ∀ (tokens : List (List Nat)) (cmds : List (List Nat)),
      tokens.length ≤ max_tokens → cmds.length ≤ 1 →
      getCommandCode tokens 0 cmds ≠ invalid_hash := by
  intro tokens cmds htok hc
  cases cmds with
  | nil => simp [getCommandCode, unknown_hash, invalid_hash]
  | cons c rest =>
    have hrest : rest = [] := by
      cases rest with
      | nil => rfl
      | cons d r2 => simp only [List.length_cons] at hc; omega
    subst hrest
    have hseed : getCommandCode tokens 0 [c] = getCodeLoop tokens 7 [c] := by
      simp [getCommandCode, invalid_hash, hash_magic_offset]
    rw [hseed]
    simp only [getCodeLoop]
    by_cases ht : tokens.isEmpty
    · rw [if_pos ht]
      split
      · decide
      · decide
    · rw [if_neg ht]
      rcases hm : firstMatch c
          (if ([] : List (List Nat)).isEmpty && qmark c then c.length - 1
           else c.length) tokens with _ | j
      · show unknown_hash ≠ invalid_hash
        decide
      · have hj : j < tokens.length := firstMatch_lt hm
        have hj20 : j < 20 := by
          simp only [max_tokens] at htok
          omega
        show (if ([] : List (List Nat)).isEmpty && qmark c then
            queryStep (hashStep 7 j) else hashStep 7 j) ≠ invalid_hash
        split
        · simp only [queryStep, hashStep, hash_magic_number, invalid_hash]
          omega
        · simp only [hashStep, hash_magic_number, invalid_hash]
          omega

/-- Witness for claim C4: a store of one token and a one-keyword query. -/
theorem claim_C4_witness :
    (chanTokens.length ≤ max_tokens
      ∧ ([bytes ("CHAN3?")] : List (List Nat)).length ≤ 1) ∧
    getCommandCode chanTokens 0 [bytes ("CHAN3?")] ≠ invalid_hash :=
  ⟨by decide,
    claim_C4_amended chanTokens [bytes ("CHAN3?")] (by decide) (by decide)⟩

/-- Claim C6: a sub-command whose computed code is the unknown code makes
`Execute` set `last_error` to UnknownCommand, invoke the error-handler slot
with the parsed command tokens and parsed parameters (the interface is
passed along unmodelled), and then continue with the remaining
sub-commands of the line. -/
theorem claim_C6 :
    ∀ (st : ParserState) (sub : List Nat) (rest : List (List Nat)),
      getCommandCode st.tokens 0 (parseCommands sub).segments = unknown_hash →
      executeList st (sub :: rest) =
        ((executeList { st with tree_code := 0, last_error := ErrorCode.UnknownCommand } rest).1,
          Event.errorCall (parseCommands sub).segments
              (parseParameters (parseCommands sub).notProcessed)
            :: (executeList { st with tree_code := 0, last_error := ErrorCode.UnknownCommand } rest).2) := by
  intro st sub rest h
  simp only [executeList, executeOne_unknown st sub h, List.cons_append,
    List.nil_append]

/-- Parser with the single command `AB` registered, used by the C6 and C7
witnesses. -/
def c6State : ParserState := registerCommand initState (bytes ("AB"))

/-- Witness for claim C6: `XY` matches no stored token, so dispatching
`XY` then `AB` reports UnknownCommand for `XY` and continues with `AB`. -/
theorem claim_C6_witness :
    getCommandCode c6State.tokens 0 (parseCommands (bytes ("XY"))).segments
      = unknown_hash ∧
    executeList c6State [bytes ("XY"), bytes ("AB")] =
      ((executeList { c6State with tree_code := 0, last_error := ErrorCode.UnknownCommand } [bytes ("AB")]).1,
        Event.errorCall (parseCommands (bytes ("XY"))).segments
            (parseParameters (parseCommands (bytes ("XY"))).notProcessed)
          :: (executeList { c6State with tree_code := 0, last_error := ErrorCode.UnknownCommand } [bytes ("AB")]).2) :=
  ⟨by decide, claim_C6 c6State (bytes ("XY")) [bytes ("AB")] (by decide)⟩

/-- Claim C7: a sub-command whose computed code is neither the unknown code
nor any registered command's stored code triggers no call at all — neither
a command handler nor the error handler runs, `last_error` is untouched —
and processing continues with the rest of the line exactly as if the
sub-command were absent (only the tree-base reset performed by `Execute`
remains). -/
theorem claim_C7 :
    ∀ (st : ParserState) (sub : List Nat) (rest : List (List Nat)),
      getCommandCode st.tokens 0 (parseCommands sub).segments ≠ unknown_hash →
      (∀ c ∈ st.codes,
        c ≠ getCommandCode st.tokens 0 (parseCommands sub).segments) →
      executeList st (sub :: rest)
        = executeList { st with tree_code := 0 } rest := by
  intro st sub rest h h2
  simp only [executeList, executeOne_nomatch st sub h h2, List.nil_append]

/-- Witness for claim C7: with only `AB` registered, the fully-matched but
unregistered path `AB:AB` is a silent no-op. -/
theorem claim_C7_witness :
    (getCommandCode c6State.tokens 0
        (parseCommands (bytes ("AB:AB"))).segments ≠ unknown_hash ∧
      (∀ c ∈ c6State.codes, c ≠ getCommandCode c6State.tokens 0
        (parseCommands (bytes ("AB:AB"))).segments)) ∧
    executeList c6State [bytes ("AB:AB")]
      = executeList { c6State with tree_code := 0 } [] :=
  ⟨⟨by decide, by decide⟩,
    claim_C7 c6State (bytes ("AB:AB")) [] (by decide) (by decide)⟩

/-- The registrations of claim C9: ten two-keyword commands fill the token
store to exactly `max_tokens` = 20, the eleventh (`TU:TV`) overflows it. -/
def c9Cmds : List (List Nat) :=
  [bytes ("TA:TB"), bytes ("TC:TD"), bytes ("TE:TF"), bytes ("TG:TH"),
   bytes ("TI:TJ"), bytes ("TK:TL"), bytes ("TM:TN"), bytes ("TO:TP"),
   bytes ("TQ:TR"), bytes ("TS:TT"), bytes ("TU:TV")]

/-- Parser state after the C9 registrations: token store full,
`token_overflow` set. -/
def c9State : ParserState := c9Cmds.foldl registerCommand initState

/-- `c9State` after additionally registering `TG:TN?` (all keywords already
stored). -/
def c9StateBad : ParserState := registerCommand c9State tgtnQStr

/-- Claim C9, counterexample.  After the token overflow, registering
`TG:TN?` — whose keywords `TG` and `TN` are all already present in the
store — does NOT succeed as the claim states: its 8-bit hash wraps to the
reserved invalid code, so the stored code is `invalid_hash`, and
dispatching `TG:TN?` invokes handler 10 (the earlier demoted `TU:TV`
registration, first match on code 1), not this registration's handler 11. -/
theorem claim_C9_counterexample :
    c9State.token_overflow = true ∧
    bytes ("TG") ∈ c9State.tokens ∧ bytes ("TN") ∈ c9State.tokens ∧
    c9StateBad.codes.getD 11 0 = invalid_hash ∧
    (execute c9StateBad tgtnQStr).2
      = [Event.handler 10 [bytes ("TG"), bytes ("TN?")] []] := by decide

/-- Claim C9 (amended).  Registering commands that introduce more distinct
keywords than `max_tokens` sets the token-overflow flag (first conjunct:
the flag is set in `c9State`); thereafter EVERY further `RegisterCommand`
whose (query-stripped) keywords are all already present in the store leaves
the token store unchanged and appends exactly the code computed over the
existing store — demoted to invalid only by the source's unknown-hash and
branch-overflow rules, never by the token-overflow flag (second conjunct).
Such a registration succeeds, i.e. dispatching the same command invokes
precisely its handler (index = number of earlier registrations), provided
its computed code is neither reserved value and differs from every earlier
stored code (third conjunct) — a proviso the counterexample shows is
needed. -/
theorem claim_C9_amended :
    c9State.token_overflow = true ∧
    (∀ (st : ParserState) (command : List Nat),
        st.token_overflow = true →
        st.codes.length < max_commands →
        (∀ seg ∈ (parseCommands command).segments,
            strippedToken seg ∈ st.tokens) →
        registerCommand st command
          = { st with codes := st.codes ++ [regStoredCode st command], command_overflow := st.command_overflow || regOverflow st command }) ∧
    (∀ (st : ParserState) (command : List Nat),
        st.token_overflow = true →
        st.codes.length < max_commands →
        (∀ seg ∈ (parseCommands command).segments,
            strippedToken seg ∈ st.tokens) →
        st.tree_code = 0 →
        regStoredCode st command ≠ unknown_hash →
        regStoredCode st command ≠ invalid_hash →
        (∀ c ∈ st.codes, c ≠ regStoredCode st command) →
        (executeOne (registerCommand st command) command).2
          = [Event.handler st.codes.length (parseCommands command).segments
              (parseParameters (parseCommands command).notProcessed)]) := by
  refine ⟨by decide, registerCommand_known, ?_⟩
  intro st command hov hfit hmem htree hneU hneI hnodup
  have hovf : regOverflow st command = false := by
    rcases hb : regOverflow st command
    · rfl
    · exact absurd (by simp [regStoredCode, hb]) hneI
  have hcode0 : ¬((getCommandCode st.tokens st.tree_code
      (parseCommands command).segments == unknown_hash) = true) := by
    intro hc
    exact hneI (by simp [regStoredCode, hovf, hc])
  have hstored : regStoredCode st command
      = getCommandCode st.tokens st.tree_code
        (parseCommands command).segments := by
    simp only [regStoredCode, hovf, Bool.false_eq_true, if_false]
    rw [if_neg hcode0]
  have hdisp : getCommandCode st.tokens 0 (parseCommands command).segments
      = regStoredCode st command := by
    rw [hstored, htree]
  rw [registerCommand_known st command hov hfit hmem]
  have ha : getCommandCode ({ st with codes := st.codes ++ [regStoredCode st command], command_overflow := st.command_overflow || regOverflow st command } : ParserState).tokens
      0 (parseCommands command).segments ≠ unknown_hash := by
    show getCommandCode st.tokens 0 (parseCommands command).segments
      ≠ unknown_hash
    rw [hdisp]
    exact hneU
  have hb : (({ st with codes := st.codes ++ [regStoredCode st command], command_overflow := st.command_overflow || regOverflow st command } : ParserState).codes.findIdx?
      (fun c => c == getCommandCode ({ st with codes := st.codes ++ [regStoredCode st command], command_overflow := st.command_overflow || regOverflow st command } : ParserState).tokens
        0 (parseCommands command).segments)) = some st.codes.length := by
    show ((st.codes ++ [regStoredCode st command]).findIdx?
      (fun c => c == getCommandCode st.tokens 0
        (parseCommands command).segments)) = some st.codes.length
    rw [hdisp]
    apply findIdx?_append_singleton
    · intro c hc
      simp only [beq_eq_false_iff_ne, ne_eq]
      exact hnodup c hc
    · simp
  rw [executeOne_found _ command st.codes.length ha hb]

/-- Witness for claim C9: in `c9State` (token store full, overflow flag
set) the further registration `TA:TD` uses only stored keywords, appends
its usual code, and dispatch invokes its handler, index 11. -/
theorem claim_C9_witness :
    (c9State.token_overflow = true ∧
      c9State.codes.length < max_commands ∧
      (∀ seg ∈ (parseCommands (bytes ("TA:TD"))).segments,
        strippedToken seg ∈ c9State.tokens) ∧
      c9State.tree_code = 0 ∧
      regStoredCode c9State (bytes ("TA:TD")) ≠ unknown_hash ∧
      regStoredCode c9State (bytes ("TA:TD")) ≠ invalid_hash ∧
      (∀ c ∈ c9State.codes, c ≠ regStoredCode c9State (bytes ("TA:TD")))) ∧
    registerCommand c9State (bytes ("TA:TD"))
      = { c9State with codes := c9State.codes ++ [regStoredCode c9State (bytes ("TA:TD"))], command_overflow := c9State.command_overflow || regOverflow c9State (bytes ("TA:TD")) } ∧
    (executeOne (registerCommand c9State (bytes ("TA:TD")))
        (bytes ("TA:TD"))).2
      = [Event.handler c9State.codes.length
          (parseCommands (bytes ("TA:TD"))).segments
          (parseParameters (parseCommands (bytes ("TA:TD"))).notProcessed)] :=
  ⟨⟨by decide, by decide, by decide, by decide, by decide, by decide,
      by decide⟩,
    claim_C9_amended.2.1 c9State (bytes ("TA:TD")) (by decide) (by decide)
      (by decide),
    claim_C9_amended.2.2 c9State (bytes ("TA:TD")) (by decide) (by decide)
      (by decide) (by decide) (by decide) (by decide) (by decide)⟩

/-! ### Claims C8 and C10 -/

/-- Claim C8: when at least `buffer_length` = 64 bytes are available before
any terminator, `GetMessage` (from an idle buffer) raises BufferOverflow
exactly once — one error-handler call with empty command and parameter
arrays, `last_error` set — consumes exactly 64 bytes, resets the cursor and
returns no line; and from the resulting state a fresh, valid short line
(content plus terminator at most 63 bytes, terminator appearing only at its
end) is parsed normally and returned. -/
theorem claim_C8 :
    ∀ (term stream L : List Nat) (st : ParserState) (now now2 : Nat),
      st.msg_buffer = [] →
      64 ≤ stream.length →
      (∀ i, i ≤ 63 → containsSub term (stream.take i) = false) →
      term ≠ [] →
      L.length + term.length ≤ 63 →
      (∀ i, i < L.length + term.length →
          containsSub term ((L ++ term).take i) = false) →
      getMessage st term now stream =
        ⟨{ st with msg_buffer := [], last_error := ErrorCode.BufferOverflow, time_checker := now }, stream.drop 64, none, [Event.errorCall [] []]⟩ ∧
      getMessage { st with msg_buffer := [], last_error := ErrorCode.BufferOverflow, time_checker := now } term now2 (L ++ term) =
        ⟨{ st with msg_buffer := [], last_error := ErrorCode.BufferOverflow, time_checker := now2 }, [], some L, []⟩ := by
  intro term stream L st now now2 hbuf hlen hnoterm hterm hfit hendonly
  constructor
  · have key := getMessage_overflow term now stream st
      (by rw [hbuf]; decide)
      (by rw [hbuf]; simpa using hlen)
      (by
        intro i _ hile
        rw [hbuf]
        simp only [List.nil_append]
        rw [hbuf] at hile
        exact hnoterm i (by simpa using hile))
    rw [hbuf] at key
    simpa using key
  · have key := getMessage_line term now2 (L ++ term)
      { st with msg_buffer := [], last_error := ErrorCode.BufferOverflow, time_checker := now }
      (by simp [hterm])
      (by simp only [List.length_nil, List.length_append]; omega)
      (by
        intro i _ hilt
        simp only [List.nil_append]
        exact hendonly i (by simpa [List.length_append] using hilt))
      (by simp only [List.nil_append]; exact containsSub_append_self term L)
    rw [key]
    have htake : ([] ++ (L ++ term)).take
        (([] : List Nat).length + (L ++ term).length - term.length) = L := by
      simp only [List.nil_append, List.length_nil, List.length_append,
        Nat.zero_add, Nat.add_sub_cancel]
      exact List.take_left L term
    rw [htake]

/-- Byte list of a line-feed terminator. -/
def nlTerm : List Nat := [10]

/-- A 100-byte terminator-free burst. -/
def c8Stream : List Nat := List.replicate 100 65

/-- The short line of the C8 witness. -/
def c8Line : List Nat := [65, 66]

/-- Witness for claim C8: 100 bytes of `A` followed by the line `AB\n`. -/
theorem claim_C8_witness :
    (64 ≤ c8Stream.length
      ∧ (∀ i, i ≤ 63 → containsSub nlTerm (c8Stream.take i) = false)) ∧
    getMessage initState nlTerm 5 c8Stream =
      ⟨{ initState with msg_buffer := [], last_error := ErrorCode.BufferOverflow, time_checker := 5 }, c8Stream.drop 64, none, [Event.errorCall [] []]⟩ ∧
    getMessage { initState with msg_buffer := [], last_error := ErrorCode.BufferOverflow, time_checker := 5 } nlTerm 6 (c8Line ++ nlTerm) =
      ⟨{ initState with msg_buffer := [], last_error := ErrorCode.BufferOverflow, time_checker := 6 }, [], some c8Line, []⟩ :=
  ⟨⟨by decide, by decide⟩,
    claim_C8 nlTerm c8Stream c8Line initState 5 6 rfl (by decide) (by decide)
      (by decide) (by decide) (by decide)⟩

/-- Claim C10: `GetMessage` never writes past the fixed buffer — the cursor
(and so every write index) stays below `buffer_length` = 64 whenever it was
below on entry (first conjunct); any returned line plus terminator is at
most 63 bytes, i.e. the longest returnable line is `buffer_length - 1`
bytes including the terminator (second conjunct); and a message whose
content plus terminator totals exactly 64 bytes is reported as
BufferOverflow — the overflow check runs before the terminator test — and
not returned (third conjunct). -/
theorem claim_C10 :
    (∀ (term stream : List Nat) (now : Nat) (st : ParserState),
        st.msg_buffer.length ≤ 63 →
        (getMessage st term now stream).state.msg_buffer.length ≤ 63) ∧
    (∀ (term stream : List Nat) (now : Nat) (st : ParserState)
        (L : List Nat),
        st.msg_buffer.length ≤ 63 →
        (getMessage st term now stream).line = some L →
        L.length + term.length ≤ 63) ∧
    (∀ (term stream : List Nat) (now : Nat) (st : ParserState),
        st.msg_buffer = [] → stream.length = 64 →
        (∀ i, i ≤ 63 → containsSub term (stream.take i) = false) →
        getMessage st term now stream =
          ⟨{ st with msg_buffer := [], last_error := ErrorCode.BufferOverflow, time_checker := now }, [], none, [Event.errorCall [] []]⟩) := by
  refine ⟨?_, ?_, ?_⟩
  · intro term stream now st h
    exact getMessage_buffer_le term now stream st h
  · intro term stream now st L h hl
    exact getMessage_line_length term now stream st L h hl
  · intro term stream now st hbuf hlen hnoterm
    have key := getMessage_overflow term now stream st
      (by rw [hbuf]; decide)
      (by rw [hbuf]; simp [hlen])
      (by
        intro i _ hile
        rw [hbuf]
        simp only [List.nil_append]
        rw [hbuf] at hile
        exact hnoterm i (by simpa using hile))
    rw [hbuf] at key
    simp only [List.length_nil, Nat.sub_zero] at key
    rw [key, ← hlen, List.drop_length]

/-- Witness for claim C10: the cursor bound after two bytes, the returned
line `A` of `A\n`, and the 64-byte message (63 content bytes plus `\n`)
reported as overflow. -/
theorem claim_C10_witness :
    (getMessage initState nlTerm 0 [65, 66]).state.msg_buffer.length ≤ 63 ∧
    ((getMessage initState nlTerm 0 [65, 10]).line = some [65]
      ∧ ([65] : List Nat).length + nlTerm.length ≤ 63) ∧
    getMessage initState nlTerm 0 (List.replicate 63 65 ++ nlTerm) =
      ⟨{ initState with msg_buffer := [], last_error := ErrorCode.BufferOverflow, time_checker := 0 }, [], none, [Event.errorCall [] []]⟩ :=
  ⟨claim_C10.1 nlTerm [65, 66] 0 initState (by decide),
    ⟨by decide,
      claim_C10.2.1 nlTerm [65, 10] 0 initState [65] (by decide) (by decide)⟩,
    claim_C10.2.2 nlTerm (List.replicate 63 65 ++ nlTerm) 0 initState rfl
      (by decide) (by decide)⟩

end Scpi
